import Mathlib

/-!
Verification of the ccg-gateway request-forwarding engine.

This file shallowly embeds the core of the gateway (routing selection,
health recording, header rewriting, model mapping, streaming
classification and SSE usage parsing) and proves properties of the
embedded definitions.

Modelling conventions:
- Byte buffers and request bodies are modelled as List Char (the code
  decodes bytes as UTF-8 with replacement before all of the parsing
  that matters here; all concrete inputs used below are ASCII).
- Python json.loads is modelled by jsonParse, a parser for the JSON
  fragment actually exercised by the gateway: null, booleans, integers,
  strings without escape sequences, arrays and objects, with blank,
  tab, CR and LF as inter-token whitespace.  json.dumps with
  ensure_ascii=False and default separators is modelled by
  jsonSerialize.
- Python dicts are association lists in insertion order; assignment to
  an existing key keeps its position (assocSet), which matches CPython.
- A raised-and-not-caught Python exception is modelled by an Option
  none result, or by an explicit ok flag when partial mutations made
  before the raise must be kept.
- Epoch times and DB integer columns are Int.
-/

namespace CCG

/-- The three CLI variants the gateway recognises.  The detector in
proxy_service._detect_cli_type only ever produces these three values,
so routing and parsing are embedded over this closed enumeration. -/
inductive CliType where
  | claude_code
  | codex
  | gemini
deriving DecidableEq

/-- JSON values, as produced by the modelled fragment of json.loads.
Numbers are integers only: the gateway only ever reads token counts
and model names, and all concrete payloads used below are integral. -/
inductive Json where
  | null
  | bool (b : Bool)
  | num (n : Int)
  | str (s : String)
  | arr (elems : List Json)
  | obj (fields : List (String × Json))

/-- Characters treated as whitespace by the modelled json.loads and by
the modelled str.strip (space, tab, LF, CR). -/
def isJsonWs (c : Char) : Bool :=
  c = ' ' || c = '\n' || c = '\t' || c = '\r'

/-- Drop leading whitespace. -/
def skipWs : List Char → List Char
  | [] => []
  | c :: cs => if isJsonWs c then skipWs cs else c :: cs

/-- Python str.strip(): drop whitespace from both ends. -/
def pyStrip (cs : List Char) : List Char :=
  ((skipWs ((skipWs cs).reverse)).reverse)

/-- The character list of a string literal. -/
def strL (s : String) : List Char := s.data

/-- Parse the body of a JSON string after the opening quote; escape
sequences are outside the modelled fragment. -/
def parseStringBody : List Char → Option (List Char × List Char)
  | [] => none
  | c :: cs =>
    if c = '\"' then some ([], cs)
    else if c = '\\' then none
    else (parseStringBody cs).map (fun p => (c :: p.1, p.2))

/-- ASCII digit test. -/
def isDigitCh (c : Char) : Bool := '0' ≤ c && c ≤ '9'

/-- Accumulate a run of digits. -/
def parseDigitsAux : List Char → Nat → Nat × List Char
  | [], acc => (acc, [])
  | c :: cs, acc =>
    if isDigitCh c then parseDigitsAux cs (acc * 10 + (c.toNat - '0'.toNat))
    else (acc, c :: cs)

/-- Parse a nonempty run of digits as a Nat. -/
def parseNatNum : List Char → Option (Nat × List Char)
  | [] => none
  | c :: cs =>
    if isDigitCh c then some (parseDigitsAux cs (c.toNat - '0'.toNat))
    else none

mutual

/-- Fuel-indexed recursive-descent parser for a JSON value; the fuel is
an upper bound on recursion depth, instantiated with the input length. -/
def parseJsonVal : Nat → List Char → Option (Json × List Char)
  | 0, _ => none
  | fuel + 1, cs =>
    match skipWs cs with
    | 'n' :: 'u' :: 'l' :: 'l' :: rest => some (.null, rest)
    | 't' :: 'r' :: 'u' :: 'e' :: rest => some (.bool true, rest)
    | 'f' :: 'a' :: 'l' :: 's' :: 'e' :: rest => some (.bool false, rest)
    | '\"' :: rest => (parseStringBody rest).map (fun p => (.str (String.mk p.1), p.2))
    | '[' :: rest =>
      (match skipWs rest with
       | ']' :: rest2 => some (.arr [], rest2)
       | _ => (parseArrayItems fuel rest).map (fun p => (.arr p.1, p.2)))
    | '\x7b' :: rest =>
      (match skipWs rest with
       | '\x7d' :: rest2 => some (.obj [], rest2)
       | _ => (parseObjItems fuel rest).map (fun p => (.obj p.1, p.2)))
    | '-' :: rest => (parseNatNum rest).map (fun p => (.num (-(p.1 : Int)), p.2))
    | c :: rest =>
      if isDigitCh c then (parseNatNum (c :: rest)).map (fun p => (.num (p.1 : Int), p.2))
      else none
    | [] => none

/-- Parse the comma-separated items of a nonempty JSON array, up to and
including the closing bracket. -/
def parseArrayItems : Nat → List Char → Option (List Json × List Char)
  | 0, _ => none
  | fuel + 1, cs => do
    let (v, rest) ← parseJsonVal fuel cs
    match skipWs rest with
    | ',' :: rest2 => (parseArrayItems fuel rest2).map (fun p => (v :: p.1, p.2))
    | ']' :: rest2 => some ([v], rest2)
    | _ => none

/-- Parse the comma-separated members of a nonempty JSON object, up to
and including the closing brace. -/
def parseObjItems : Nat → List Char → Option (List (String × Json) × List Char)
  | 0, _ => none
  | fuel + 1, cs =>
    match skipWs cs with
    | '\"' :: rest => do
      let (k, rest1) ← parseStringBody rest
      match skipWs rest1 with
      | ':' :: rest2 => do
        let (v, rest3) ← parseJsonVal fuel rest2
        match skipWs rest3 with
        | ',' :: rest4 => (parseObjItems fuel rest4).map (fun p => ((String.mk k, v) :: p.1, p.2))
        | '\x7d' :: rest4 => some ([(String.mk k, v)], rest4)
        | _ => none
      | _ => none
    | _ => none

end

/-- Python json.loads on the modelled fragment: the whole input must be
consumed (up to trailing whitespace); any failure is a decode error. -/
def jsonParse (cs : List Char) : Option Json :=
  match parseJsonVal (cs.length + 1) cs with
  | some (v, rest) => if skipWs rest = [] then some v else none
  | none => none

mutual

/-- Python json.dumps with ensure_ascii=False and the default
separators: items joined by comma-space, keys and values by
colon-space.  String escaping is outside the modelled fragment. -/
def jsonSerialize : Json → List Char
  | .null => strL "null"
  | .bool true => strL "true"
  | .bool false => strL "false"
  | .num n => (toString n).data
  | .str s => '\"' :: (s.data ++ ['\"'])
  | .arr xs => '[' :: (serializeItems xs ++ [']'])
  | .obj fs => '\x7b' :: (serializeMembers fs ++ ['\x7d'])

/-- Array items joined by comma-space. -/
def serializeItems : List Json → List Char
  | [] => []
  | [x] => jsonSerialize x
  | x :: y :: rest => jsonSerialize x ++ ',' :: ' ' :: serializeItems (y :: rest)

/-- Object members joined by comma-space, key and value by colon-space. -/
def serializeMembers : List (String × Json) → List Char
  | [] => []
  | [(k, v)] => '\"' :: (k.data ++ '\"' :: ':' :: ' ' :: jsonSerialize v)
  | (k, v) :: m :: rest =>
    '\"' :: (k.data ++ '\"' :: ':' :: ' ' :: jsonSerialize v) ++ ',' :: ' ' :: serializeMembers (m :: rest)

end

/-! ### SSE usage parsing (proxy_service._parse_sse_usage) -/

/-- Split a text on LF, mirroring Python str.split on a newline: the
result always has one more element than the number of newlines, and a
trailing newline yields a trailing empty line. -/
def splitLines : List Char → List (List Char)
  | [] => [[]]
  | c :: cs =>
    if c = '\n' then [] :: splitLines cs
    else
      match splitLines cs with
      | [] => [[c]]
      | l :: ls => (c :: l) :: ls

/-- The payload of one SSE line: for a line starting with the data
prefix, the stripped remainder unless it is empty or the DONE
sentinel. -/
def linePayload (line : List Char) : Option (List Char) :=
  if line.take 6 = strL "data: " then
    let d := pyStrip (line.drop 6)
    if d ≠ [] ∧ d ≠ strL "[DONE]" then some d else none
  else none

/-- All data payloads of a chunk, in order. -/
def dataPayloads (t : List Char) : List (List Char) :=
  (splitLines t).filterMap linePayload

/-- The payloads of a chunk that decode as JSON (decode failures are
skipped, mirroring the per-payload try/except). -/
def decodedPayloads (t : List Char) : List Json :=
  (dataPayloads t).filterMap jsonParse

/-- The JSON events a single _parse_sse_usage call processes: the
decoded SSE payloads, or, when there are none, the whole chunk parsed
as plain JSON (the non-streaming fallback). -/
def chunkEvents (t : List Char) : List Json :=
  let ds := decodedPayloads t
  if ds.isEmpty then (jsonParse (pyStrip t)).toList else ds

/-- The usage accumulator: the two entries of the Python usage dict.
The values are JSON values, because the code assigns whatever JSON
value the event carried. -/
structure Usage where
  input : Json
  output : Json

/-- The initial usage dict: both counters the integer zero. -/
def usageZero : Usage := ⟨.num 0, .num 0⟩

/-- Dictionary lookup on a JSON value; none for a non-object. -/
def jLookup : Json → String → Option Json
  | .obj fs, k => fs.lookup k
  | _, _ => none

/-- Python value.get(key, default-empty-dict). -/
def jGetD (j : Json) (k : String) : Json := (jLookup j k).getD (.obj [])

/-- Whether a JSON value is an object (a Python dict). -/
def isObj : Json → Bool
  | .obj _ => true
  | _ => false

/-- Python meta.get(key, 0) read as an integer for the Gemini token
sum: absent is 0, a number is itself, and any other value would make
the subsequent addition or comparison raise (modelled as none). -/
def optTokenNum : Option Json → Option Int
  | none => some 0
  | some (.num n) => some n
  | some _ => none

/-- Assign the input counter when a value is present. -/
def updInput (u : Usage) : Option Json → Usage
  | some v => { u with input := v }
  | none => u

/-- Assign the output counter when a value is present. -/
def updOutput (u : Usage) : Option Json → Usage
  | some v => { u with output := v }
  | none => u

/-- Whether processing one decoded event raises no exception for the
given CLI variant (attribute and membership access on non-dict values,
and non-integer Gemini token counts, raise; see evStep for what is
still mutated before the raise). -/
def evOk (cli : CliType) (data : Json) : Bool :=
  match cli with
  | .claude_code =>
    isObj data && isObj (jGetD data "message")
      && isObj (jGetD (jGetD data "message") "usage")
      && isObj (jGetD data "usage")
  | .codex =>
    isObj data &&
      (match jLookup data "type" with
       | some (.str t) =>
         if t = "response.completed" then
           isObj (jGetD data "response") && isObj (jGetD (jGetD data "response") "usage")
         else true
       | _ => true)
  | .gemini =>
    isObj data && isObj (jGetD data "usageMetadata")
      && (optTokenNum (jLookup (jGetD data "usageMetadata") "candidatesTokenCount")).isSome
      && (optTokenNum (jLookup (jGetD data "usageMetadata") "thoughtsTokenCount")).isSome

/-- Process one decoded event against the usage dict, applying exactly
the assignments the Python loop body performs before any raise: the
Claude branch assigns from message.usage and then from the top-level
usage, each by plain assignment; the Codex branch assigns from
response.usage only on a response.completed event; the Gemini branch
assigns promptTokenCount to input and, when positive, the
candidates-plus-thoughts sum to output. -/
def evStep (cli : CliType) (data : Json) (u : Usage) : Usage :=
  match cli with
  | .claude_code =>
    if isObj data && isObj (jGetD data "message")
        && isObj (jGetD (jGetD data "message") "usage") then
      let musage := jGetD (jGetD data "message") "usage"
      let u1 := updOutput (updInput u (jLookup musage "input_tokens")) (jLookup musage "output_tokens")
      if isObj (jGetD data "usage") then
        let dusage := jGetD data "usage"
        updOutput (updInput u1 (jLookup dusage "input_tokens")) (jLookup dusage "output_tokens")
      else u1
    else u
  | .codex =>
    if evOk .codex data then
      match jLookup data "type" with
      | some (.str t) =>
        if t = "response.completed" then
          let rusage := jGetD (jGetD data "response") "usage"
          updOutput (updInput u (jLookup rusage "input_tokens")) (jLookup rusage "output_tokens")
        else u
      | _ => u
    else u
  | .gemini =>
    if isObj data && isObj (jGetD data "usageMetadata") then
      let meta := jGetD data "usageMetadata"
      let u1 := updInput u (jLookup meta "promptTokenCount")
      match optTokenNum (jLookup meta "candidatesTokenCount"),
            optTokenNum (jLookup meta "thoughtsTokenCount") with
      | some c, some t => if c + t > 0 then { u1 with output := .num (c + t) } else u1
      | _, _ => u1
    else u

/-- The effective input_tokens assignment a non-raising event makes,
if any: for CLI A the top-level usage value when present, else the
message.usage value (the top-level one is assigned second and wins
within one event); for CLI B the response.usage value of a completed
event; for CLI C the promptTokenCount. -/
def inpVal (cli : CliType) (data : Json) : Option Json :=
  match cli with
  | .claude_code =>
    (jLookup (jGetD data "usage") "input_tokens").orElse
      (fun _ => jLookup (jGetD (jGetD data "message") "usage") "input_tokens")
  | .codex =>
    match jLookup data "type" with
    | some (.str t) =>
      if t = "response.completed" then
        jLookup (jGetD (jGetD data "response") "usage") "input_tokens"
      else none
    | _ => none
  | .gemini => jLookup (jGetD data "usageMetadata") "promptTokenCount"

/-- The effective output_tokens assignment a non-raising event makes,
if any; for CLI C the positive candidates-plus-thoughts sum. -/
def outVal (cli : CliType) (data : Json) : Option Json :=
  match cli with
  | .claude_code =>
    (jLookup (jGetD data "usage") "output_tokens").orElse
      (fun _ => jLookup (jGetD (jGetD data "message") "usage") "output_tokens")
  | .codex =>
    match jLookup data "type" with
    | some (.str t) =>
      if t = "response.completed" then
        jLookup (jGetD (jGetD data "response") "usage") "output_tokens"
      else none
    | _ => none
  | .gemini =>
    match optTokenNum (jLookup (jGetD data "usageMetadata") "candidatesTokenCount"),
          optTokenNum (jLookup (jGetD data "usageMetadata") "thoughtsTokenCount") with
    | some c, some t => if c + t > 0 then some (.num (c + t)) else none
    | _, _ => none

/-- Process a list of decoded events in order; an event that raises
keeps its partial assignments and aborts the rest of this chunk's
processing (the whole parser body sits in a try/except pass). -/
def applyEvents (cli : CliType) : List Json → Usage → Usage
  | [], u => u
  | e :: es, u =>
    if evOk cli e then applyEvents cli es (evStep cli e u)
    else evStep cli e u

/-- One call of _parse_sse_usage on a chunk, mutating the usage dict. -/
def parseSseUsage (cli : CliType) (t : List Char) (u : Usage) : Usage :=
  applyEvents cli (chunkEvents t) u

/-- Python containerValue == 0, as used on the usage dict entries: true
for the integer zero and for False (Python bool equality with ints). -/
def pyEqZero : Json → Bool
  | .num n => n = 0
  | .bool b => b = false
  | _ => false

/-- The incremental pass of the streaming generator: each received
chunk is fed to the parser in order, starting from the zero dict. -/
def streamFold (cli : CliType) (chunks : List (List Char)) : Usage :=
  chunks.foldl (fun u c => parseSseUsage cli c u) usageZero

/-- The final usage of a completed stream: the incremental pass,
followed by the single whole-buffer re-parse that runs when chunks
were collected and both counters still compare equal to zero. -/
def finalUsage (cli : CliType) (chunks : List (List Char)) : Usage :=
  let u := streamFold cli chunks
  if !chunks.isEmpty && pyEqZero u.input && pyEqZero u.output then
    parseSseUsage cli chunks.flatten u
  else u

/-! ### Glob matching (fnmatch on already-lowercased inputs) -/

/-- Lowercase a character list (the code lowercases both the model name
and the pattern before matching; ASCII suffices for the fragment). -/
def lowerL (cs : List Char) : List Char := cs.map Char.toLower

/-! ### Model mapping (proxy_service._apply_model_mapping) -/

/-- A provider model-map row, with exactly the columns the ORM class
ProviderModelMap declares: identity, owning provider, role, the
replacement model and the integer enabled column.  The services layer
reads a source_model attribute that this class does not define; that
mismatch is what the model-mapping analysis below is about. -/
structure ModelMap where
  id : Int
  provider_id : Int
  model_role : String
  target_model : String
  enabled : Int
deriving DecidableEq

/-- Whether the second list starts with the first. -/
def startsWithL : List Char → List Char → Bool
  | [], _ => true
  | _ :: _, [] => false
  | a :: as, b :: bs => a = b && startsWithL as bs

/-- Python substring containment: the pattern occurs contiguously. -/
def containsSubL (pat : List Char) : List Char → Bool
  | [] => pat.isEmpty
  | c :: cs => startsWithL pat (c :: cs) || containsSubL pat cs

/-- Python key-in-value membership: key lookup on dicts, element
equality on lists, substring test on strings; a TypeError (membership
on a number, boolean or null) is none. -/
def pyMember (key : String) : Json → Option Bool
  | .obj fs => some (fs.lookup key).isSome
  | .arr xs => some (xs.any (fun j => match j with | .str s => s = key | _ => false))
  | .str s => some (containsSubL (strL key) s.data)
  | _ => none

/-- Python value[key]: defined on dicts only; indexing a list or string
with a string key raises (none).  Only called after membership held, so
the dict lookup is always some. -/
def pyIndex (key : String) : Json → Option Json
  | .obj fs => fs.lookup key
  | _ => none

/-- Python dict assignment on an association list: replace in place
when the key exists, append otherwise. -/
def assocSet {β : Type} : List (String × β) → String → β → List (String × β)
  | [], k, v => [(k, v)]
  | (k', v') :: rest, k, v =>
    if k' = k then (k, v) :: rest else (k', v') :: assocSet rest k v

/-- Assignment data[key] = v on a JSON object. -/
def jSet : Json → String → Json → Json
  | .obj fs, k, v => .obj (assocSet fs k v)
  | j, _, _ => j

/-- The for-loop over the provider's model maps: a disabled rule is
skipped with no attribute access (the boolean short-circuit), but the
body of the first enabled rule evaluates original_model.lower() (an
AttributeError for a non-string model value) and then
mm.source_model — an attribute the ProviderModelMap class does not
define — so the first enabled rule always raises (none), uncaught by
the except clause of _apply_model_mapping.  Only a rule list with no
enabled rule completes the loop, with no match. -/
def findMatchLoop : List ModelMap → Option (Option ModelMap)
  | [] => some none
  | mm :: rest =>
    if mm.enabled != 0 then none
    else findMatchLoop rest

/-- proxy_service._apply_model_mapping for CLI A and B: returns
(new_body, original_model, final_model), or none when the code would
raise out of the function (membership or indexing on a non-dict JSON
body, or the AttributeError every enabled rule raises because the
ProviderModelMap class defines model_role and not the source_model
the loop reads).  The matched-rule branch mirrors the source's return
statement but is unreachable: findMatchLoop never produces a match. -/
def applyModelMapping (maps : List ModelMap) (body : List Char) :
    Option (List Char × Option Json × Option Json) :=
  if body = [] then some (body, none, none)
  else
    match jsonParse body with
    | none => some (body, none, none)
    | some data =>
      match pyMember "model" data with
      | none => none
      | some false => some (body, none, none)
      | some true =>
        match pyIndex "model" data with
        | none => none
        | some origModel =>
          if maps = [] then some (body, none, some origModel)
          else
            match findMatchLoop maps with
            | none => none
            | some none => some (body, none, some origModel)
            | some (some mm) =>
              some (jsonSerialize (jSet data "model" (.str mm.target_model)),
                    some origModel, some (.str mm.target_model))

/-! ### Streaming classification (proxy_service._is_streaming_request) -/

/-- Python truthiness of a JSON value. -/
def pyTruthy : Json → Bool
  | .null => false
  | .bool b => b
  | .num n => n != 0
  | .str s => !s.isEmpty
  | .arr xs => !xs.isEmpty
  | .obj fs => !fs.isEmpty

/-- proxy_service._is_streaming_request: for Gemini, a path substring
test; otherwise the truthiness of body-JSON stream-field-or-False,
with any exception (non-JSON body, non-dict JSON) giving False. -/
def isStreamingRequest (body : List Char) (path : List Char) (cli : CliType) : Bool :=
  match cli with
  | .gemini => containsSubL (strL ":streamGenerateContent") path
  | _ =>
    match jsonParse body with
    | some (.obj fs) => pyTruthy ((fs.lookup "stream").getD (.bool false))
    | _ => false

/-- What the specification sentence asserts for classification: for A
and B, streaming iff the JSON body object carries the boolean true in
its stream field. -/
def isStreamingClaim (body : List Char) (path : List Char) (cli : CliType) : Bool :=
  match cli with
  | .gemini => containsSubL (strL ":streamGenerateContent") path
  | _ =>
    match jsonParse body with
    | some (.obj fs) =>
      match fs.lookup "stream" with
      | some (.bool true) => true
      | _ => false
    | _ => false

/-! ### Header rewriting (proxy_service.forward_request and the two
response builders) -/

/-- The hop-by-hop names dropped from forwarded requests. -/
def FILTERED_HEADERS : List String :=
  ["host", "connection", "keep-alive", "transfer-encoding",
   "te", "trailer", "upgrade", "content-length"]

/-- Python str.lower on a header name (ASCII; header names are
ASCII). -/
def lowerStr (s : String) : String := String.mk (lowerL s.data)

/-- The request-header filter comprehension: keep an inbound header
when its lowercased name is not hop-by-hop. -/
def filterRequestHeaders (hs : List (String × String)) : List (String × String) :=
  hs.filter (fun kv => !FILTERED_HEADERS.contains (lowerStr kv.1))

/-- Header preparation of forward_request: filter the inbound dict,
then for Gemini pop any authorization entry and set x-goog-api-key,
else set authorization to the bearer token (dict assignment replaces
an existing entry in place). -/
def buildForwardHeaders (cli : CliType) (apiKey : String)
    (inbound : List (String × String)) : List (String × String) :=
  let hs := filterRequestHeaders inbound
  match cli with
  | .gemini => assocSet (hs.filter (fun kv => kv.1 ≠ "authorization")) "x-goog-api-key" apiKey
  | _ => assocSet hs "authorization" ("Bearer " ++ apiKey)

/-- The response-header filter comprehension shared by
_forward_streaming and _forward_non_streaming: drop hop-by-hop names
and content-encoding. -/
def filterResponseHeaders (hs : List (String × String)) : List (String × String) :=
  hs.filter (fun kv =>
    !FILTERED_HEADERS.contains (lowerStr kv.1) && lowerStr kv.1 ≠ "content-encoding")

/-- UTF-8 bytes of a code point. -/
def utf8Encode (n : Nat) : List Nat :=
  if n < 128 then [n]
  else if n < 2048 then [192 + n / 64, 128 + n % 64]
  else if n < 65536 then [224 + n / 4096, 128 + (n / 64) % 64, 128 + n % 64]
  else [240 + n / 262144, 128 + (n / 4096) % 64, 128 + (n / 64) % 64, 128 + n % 64]

/-- Uppercase hex digit. -/
def hexDigitCh (n : Nat) : Char :=
  if n < 10 then Char.ofNat ('0'.toNat + n) else Char.ofNat ('A'.toNat + (n - 10))

/-- The characters urllib.parse.quote never encodes. -/
def isUnreservedCh (c : Char) : Bool :=
  ('A' ≤ c && c ≤ 'Z') || ('a' ≤ c && c ≤ 'z') || ('0' ≤ c && c ≤ '9')
    || c = '_' || c = '.' || c = '-' || c = '~'

/-- urllib.parse.quote with an empty safe set: percent-encode every
UTF-8 byte of every non-unreserved character. -/
def pctQuote (s : String) : String :=
  String.mk (s.data.foldr (fun c acc =>
    (if isUnreservedCh c then [c]
     else (utf8Encode c.toNat).foldr
       (fun b acc2 => '%' :: hexDigitCh (b / 16) :: hexDigitCh (b % 16) :: acc2) []) ++ acc) [])

/-- The response headers returned to the CLI on a successful forward,
identical in the streaming and non-streaming branches: the filtered
upstream headers plus the percent-encoded provider name. -/
def buildResponseHeaders (providerName : String)
    (upstream : List (String × String)) : List (String × String) :=
  assocSet (filterResponseHeaders upstream) "X-CCG-Provider" (pctQuote providerName)

/-! ### Providers, routing and health recording -/

/-- A provider row, with the columns the request path reads or writes
(created_at and updated_at are admin bookkeeping and never consulted
by the embedded operations). -/
structure Provider where
  id : Int
  cli_type : CliType
  name : String
  base_url : String
  api_key : String
  enabled : Int
  failure_threshold : Int
  blacklist_minutes : Int
  consecutive_failures : Int
  blacklisted_until : Option Int
  sort_order : Int
  model_maps : List ModelMap
deriving DecidableEq

/-- routing_service._is_blacklisted: non-null and strictly in the
future. -/
def is_blacklisted (p : Provider) (now : Int) : Bool :=
  match p.blacklisted_until with
  | none => false
  | some u => u > now

/-- The WHERE clause of the routing query: enabled and of the requested
CLI type. -/
def eligibleProvider (p : Provider) (t : CliType) : Bool :=
  p.enabled == 1 && p.cli_type == t

/-- The lists the routing query may return: the SELECT orders by
sort_order only, so any permutation of the eligible rows that is
nondecreasing in sort_order is an admissible result (the relative
order of rows with equal sort_order is not specified by the query). -/
def AdmissibleQueryResult (ps : List Provider) (t : CliType) (qs : List Provider) : Prop :=
  qs.Perm (ps.filter (fun p => eligibleProvider p t))
    ∧ qs.Sorted (fun a b => a.sort_order ≤ b.sort_order)

/-- The loop of routing_service.select_provider over the query result:
return the first provider that is not blacklisted, else null. -/
def select_provider (qs : List Provider) (now : Int) : Option Provider :=
  qs.find? (fun p => !is_blacklisted p now)

/-- What the claim asserts select_provider returns: the minimum by the
(sort_order, id) key among the eligible non-blacklisted providers. -/
def ltSortId (p q : Provider) : Bool :=
  p.sort_order < q.sort_order || (p.sort_order == q.sort_order && p.id < q.id)

/-- Minimum of a provider list by the (sort_order, id) key. -/
def minBySortId (ps : List Provider) : Option Provider :=
  ps.foldl (fun acc p =>
    match acc with
    | none => some p
    | some q => if ltSortId p q then some p else some q) none

/-- provider_service.record_failure, as a function of the epoch at the
call: return unchanged when an active blacklist is already set (the
Python truthiness guard also lets the literal zero through), else
increment, and on reaching the threshold reset the streak and set the
expiry now plus sixty times blacklist_minutes. -/
def record_failure (now : Int) (p : Provider) : Provider :=
  if (match p.blacklisted_until with
      | some u => u != 0 && decide (u > now)
      | none => false) then p
  else
    let newFails := p.consecutive_failures + 1
    if newFails ≥ p.failure_threshold then
      { p with consecutive_failures := 0,
               blacklisted_until := some (now + p.blacklist_minutes * 60) }
    else { p with consecutive_failures := newFails }

/-- provider_service.record_success: reset the streak when it is
positive; no other column is touched. -/
def record_success (p : Provider) : Provider :=
  if p.consecutive_failures > 0 then { p with consecutive_failures := 0 } else p

/-- provider_service.unblacklist: clear the expiry and the streak. -/
def unblacklist (p : Provider) : Provider :=
  { p with blacklisted_until := none, consecutive_failures := 0 }

/-- A sequence of record_failure calls at the given epochs, oldest
first (the per-provider lock serialises them). -/
def record_failures (ts : List Int) (p : Provider) : Provider :=
  ts.foldl (fun q t => record_failure t q) p

/-! ### Non-streaming forward outcome (proxy_service._forward_non_streaming) -/

/-- The upstream result of a non-streaming forward: a complete
response, or the read timeout. -/
inductive UpstreamResult where
  | ok (status : Nat) (body : List Char) (headers : List (String × String))
  | timeout

/-- Which health transition the forwarder invokes. -/
inductive HealthCall where
  | success
  | failure
deriving DecidableEq

/-- What _forward_non_streaming does after the upstream call, observed
through its effects: the health call, the stats row (success flag and
the two token values passed to record_request), the response returned
or the HTTPException raised (status and detail), and the error_message
of the request-log row when debug logging persists one. -/
structure NonStreamingOutcome where
  health : HealthCall
  statSuccess : Bool
  statInput : Json
  statOutput : Json
  response : Except (Nat × String) (Nat × List Char × List (String × String))
  logRow : Option (Option String)

/-- The effect summary of _forward_non_streaming as a function of the
upstream result: parse usage from the body, record success below 400
with the parsed tokens and echo the body with filtered headers, record
failure at 400 and above with zero tokens while still echoing, and on
timeout record failure and raise 504 with an Upstream-timeout log row
when debug logging is on. -/
def forwardNonStreaming (cli : CliType) (providerName : String) (debugLog : Bool)
    (r : UpstreamResult) : NonStreamingOutcome :=
  match r with
  | .ok status body upHeaders =>
    let usage := parseSseUsage cli body usageZero
    let succ : Bool := status < 400
    { health := if succ then .success else .failure
      statSuccess := succ
      statInput := if succ then usage.input else .num 0
      statOutput := if succ then usage.output else .num 0
      response := .ok (status, body, buildResponseHeaders providerName upHeaders)
      logRow := if debugLog then some none else none }
  | .timeout =>
    { health := .failure
      statSuccess := false
      statInput := .num 0
      statOutput := .num 0
      response := .error (504, "Upstream timeout")
      logRow := if debugLog then some (some "Upstream timeout") else none }

/-- A chunk boundary that does not split a line: the chunk is empty or
ends with a newline. -/
def LineAligned (c : List Char) : Prop :=
  c = [] ∨ c.getLast? = some '\n'

/-- A chunk that does not trigger the plain-JSON fallback spuriously:
it either carries at least one decoded SSE payload, or its stripped
text is not valid JSON. -/
def SsePure (c : List Char) : Prop :=
  (decodedPayloads c).isEmpty = false ∨ (jsonParse (pyStrip c)).isNone = true

instance (c : List Char) : Decidable (LineAligned c) :=
  inferInstanceAs (Decidable (_ ∨ _))

instance (c : List Char) : Decidable (SsePure c) :=
  inferInstanceAs (Decidable (_ ∨ _))

/-- Numeric projection of a JSON value, for stating counterexamples
decidably. -/
def jNumP : Json → Option Int
  | .num n => some n
  | _ => none

/-- First chunk of the chunk-boundary counterexample: a complete data
line carrying input_tokens 5 followed by the first two characters of
the next data line. -/
def chunkSplitA : List Char :=
  strL "data: \x7b\"usage\":\x7b\"input_tokens\":5\x7d\x7d\nda"

/-- Second chunk of the chunk-boundary counterexample: the remainder
of the data line carrying output_tokens 7. -/
def chunkSplitB : List Char :=
  strL "ta: \x7b\"usage\":\x7b\"output_tokens\":7\x7d\x7d\n"

/-- A line-aligned chunk carrying input_tokens 5. -/
def chunkAlignedA : List Char :=
  strL "data: \x7b\"usage\":\x7b\"input_tokens\":5\x7d\x7d\n"

/-- A line-aligned chunk carrying output_tokens 7. -/
def chunkAlignedB : List Char :=
  strL "data: \x7b\"usage\":\x7b\"output_tokens\":7\x7d\x7d\n"

/-- A concrete provider used to instantiate hypotheses of the proved
theorems on examples. -/
def sampleProvider : Provider :=
  { id := 1, cli_type := .claude_code, name := "P1", base_url := "http://u",
    api_key := "K", enabled := 1, failure_threshold := 3, blacklist_minutes := 10,
    consecutive_failures := 0, blacklisted_until := none, sort_order := 0,
    model_maps := [] }

/-- A second concrete provider, mid-streak and blacklisted, for
example instances. -/
def sampleProvider2 : Provider :=
  { sampleProvider with consecutive_failures := 2, blacklisted_until := some 500 }

/-- A provider sharing sampleProvider's sort_order but with a larger
id, for the routing tie-break analysis. -/
def sampleProviderB : Provider :=
  { sampleProvider with id := 2, name := "P2" }

/-- An enabled model-map row as the ORM can actually hold it:
model_role and target_model, no source_model. -/
def mapRole : ModelMap :=
  { id := 1, provider_id := 1, model_role := "primary", target_model := "gpt-x", enabled := 1 }

/-- A disabled model-map row. -/
def mapRoleOff : ModelMap :=
  { id := 2, provider_id := 1, model_role := "haiku", target_model := "gpt-y", enabled := 0 }

/-! ## Theorems -/

/-- Folding record_failure while strictly below the threshold just
counts: no blacklist is set and the streak grows by one per call. -/
theorem record_failures_below (ts : List Int) (p : Provider)
    (hbu : p.blacklisted_until = none)
    (hlt : p.consecutive_failures + ts.length < p.failure_threshold) :
    record_failures ts p =
      { p with consecutive_failures := p.consecutive_failures + ts.length } := by
  induction ts generalizing p with
  | nil => simp [record_failures]
  | cons t ts ih =>
    have hstep : record_failure t p = { p with consecutive_failures := p.consecutive_failures + 1 } := by
      have hth : ¬ p.consecutive_failures + 1 ≥ p.failure_threshold := by
        simp only [List.length_cons] at hlt
        push_cast at hlt
        omega
      simp [record_failure, hbu, hth]
    have hlen : ((t :: ts).length : Int) = (ts.length : Int) + 1 := by
      simp
    have := ih { p with consecutive_failures := p.consecutive_failures + 1 }
      (by simp [hbu])
      (by
        simp only [List.length_cons] at hlt
        push_cast at hlt ⊢
        omega)
    simp only [record_failures, List.foldl_cons] at *
    rw [hstep, this]
    simp only [List.length_cons]
    congr 1
    push_cast
    omega

/-- Claim C2: starting from a zero streak with no blacklist, invoking
record_failure k-lt-N times (at arbitrary epochs, no intervening
success) leaves the streak at k and no blacklist; the Nth invocation,
at epoch t, resets the streak to zero and sets blacklisted_until to
t plus sixty times blacklist_minutes. -/
theorem record_failure_threshold_trip (p : Provider)
    (hcf : p.consecutive_failures = 0)
    (hbu : p.blacklisted_until = none) :
    (∀ ts : List Int, (ts.length : Int) < p.failure_threshold →
      (record_failures ts p).consecutive_failures = ts.length ∧
      (record_failures ts p).blacklisted_until = none) ∧
    (∀ (ts : List Int) (t : Int), (ts.length : Int) + 1 = p.failure_threshold →
      (record_failures (ts ++ [t]) p).consecutive_failures = 0 ∧
      (record_failures (ts ++ [t]) p).blacklisted_until =
        some (t + 60 * p.blacklist_minutes)) := by
  constructor
  · intro ts hlen
    have := record_failures_below ts p hbu (by omega)
    rw [this]
    simp [hcf, hbu]
  · intro ts t hlen
    have hbelow := record_failures_below ts p hbu (by omega)
    have hsplit : record_failures (ts ++ [t]) p = record_failure t (record_failures ts p) := by
      simp [record_failures]
    rw [hsplit, hbelow]
    have hth : p.consecutive_failures + (ts.length : Int) + 1 ≥ p.failure_threshold := by omega
    simp only [record_failure, hbu]
    simp only [hcf, zero_add] at hth ⊢
    rw [if_neg (by simp), if_pos (by omega)]
    constructor
    · rfl
    · simp
      omega

/-- Claim C10: record_success never touches blacklisted_until (so an
active blacklist keeps the provider routed around until its expiry),
it resets a positive streak, only unblacklist clears the expiry, and
record_failure never clears a set expiry either. -/
theorem record_success_frame (p : Provider) (now : Int) :
    (record_success p).blacklisted_until = p.blacklisted_until ∧
    is_blacklisted (record_success p) now = is_blacklisted p now ∧
    (p.consecutive_failures > 0 → (record_success p).consecutive_failures = 0) ∧
    (unblacklist p).blacklisted_until = none ∧
    (unblacklist p).consecutive_failures = 0 ∧
    (∀ u : Int, p.blacklisted_until = some u →
      (record_failure now p).blacklisted_until ≠ none) := by
  have h1 : (record_success p).blacklisted_until = p.blacklisted_until := by
    simp only [record_success]
    split <;> rfl
  refine ⟨h1, ?_, ?_, rfl, rfl, ?_⟩
  · unfold is_blacklisted
    rw [h1]
  · intro h
    simp [record_success, h]
  · intro u hu
    simp only [record_failure, hu]
    split
    · simp [hu]
    · split <;> simp [hu]

/-- Example instance of claim C2's theorem at a concrete provider. -/
theorem record_failure_threshold_trip_witness :
    (record_failures [100] sampleProvider).consecutive_failures = 1 ∧
    (record_failures [100, 200, 300] sampleProvider).blacklisted_until =
      some (300 + 60 * 10) := by
  have h := record_failure_threshold_trip sampleProvider rfl rfl
  refine ⟨by simpa using (h.1 [100] (by decide)).1, ?_⟩
  have := (h.2 [100, 200] 300 (by decide)).2
  simpa using this

/-- Example instance of claim C10's theorem at a concrete provider. -/
theorem record_success_frame_witness :
    (record_success sampleProvider2).blacklisted_until = some 500 ∧
    (sampleProvider2.consecutive_failures > 0 →
      (record_success sampleProvider2).consecutive_failures = 0) := by
  have h := record_success_frame sampleProvider2 400
  exact ⟨h.1, h.2.2.1⟩

/-- The selection loop on a sort_order-sorted list returns the first
non-blacklisted entry, which has minimal sort_order among all
non-blacklisted entries; it returns null exactly when every entry is
blacklisted. -/
theorem select_provider_sorted_spec (qs : List Provider) (now : Int)
    (hs : qs.Sorted (fun a b => a.sort_order ≤ b.sort_order)) :
    (∀ p, select_provider qs now = some p →
      p ∈ qs ∧ is_blacklisted p now = false ∧
      ∀ q ∈ qs, is_blacklisted q now = false → p.sort_order ≤ q.sort_order) ∧
    (select_provider qs now = none ↔ ∀ q ∈ qs, is_blacklisted q now = true) := by
  induction qs with
  | nil => simp [select_provider]
  | cons a qs ih =>
    rw [List.sorted_cons] at hs
    obtain ⟨ha, hs'⟩ := hs
    have ih' := ih hs'
    by_cases hba : is_blacklisted a now = false
    · constructor
      · intro p hp
        simp only [select_provider, List.find?_cons, hba] at hp
        simp only [Bool.not_false, if_pos] at hp
        cases hp
        refine ⟨List.mem_cons_self a qs, hba, ?_⟩
        intro q hq _
        rcases List.mem_cons.mp hq with h | h
        · subst h; exact le_refl _
        · exact ha q h
      · constructor
        · intro hnone
          simp only [select_provider, List.find?_cons, hba] at hnone
          simp at hnone
        · intro hall
          have := hall a (List.mem_cons_self a qs)
          rw [hba] at this
          simp at this
    · have hba' : is_blacklisted a now = true := by
        revert hba
        cases is_blacklisted a now <;> simp
      have hfind : select_provider (a :: qs) now = select_provider qs now := by
        simp [select_provider, List.find?_cons, hba']
      constructor
      · intro p hp
        rw [hfind] at hp
        obtain ⟨hmem, hbl, hmin⟩ := ih'.1 p hp
        refine ⟨List.mem_cons_of_mem a hmem, hbl, ?_⟩
        intro q hq hqb
        rcases List.mem_cons.mp hq with h | h
        · subst h; rw [hba'] at hqb; simp at hqb
        · exact hmin q h hqb
      · rw [hfind, ih'.2]
        constructor
        · intro hall q hq
          rcases List.mem_cons.mp hq with h | h
          · subst h; exact hba'
          · exact hall q h
        · intro hall q hq
          exact hall q (List.mem_cons_of_mem a hq)

/-- Claim C1 (amended): on any admissible query result, select returns
an eligible, non-blacklisted provider of minimal sort_order among the
eligible non-blacklisted providers, and null exactly when there is
none; the id tie-break asserted by the claim is not guaranteed, since
the query orders by sort_order only. -/
theorem select_provider_minimal (ps : List Provider) (t : CliType) (now : Int)
    (qs : List Provider) (h : AdmissibleQueryResult ps t qs) :
    (∀ p, select_provider qs now = some p →
      eligibleProvider p t = true ∧ is_blacklisted p now = false ∧
      ∀ q ∈ ps, eligibleProvider q t = true → is_blacklisted q now = false →
        p.sort_order ≤ q.sort_order) ∧
    (select_provider qs now = none ↔
      ∀ q ∈ ps, eligibleProvider q t = true → is_blacklisted q now = true) := by
  obtain ⟨hperm, hsort⟩ := h
  have hmem : ∀ q : Provider, q ∈ qs ↔ q ∈ ps ∧ eligibleProvider q t = true := by
    intro q
    rw [hperm.mem_iff, List.mem_filter]
  have hbase := select_provider_sorted_spec qs now hsort
  constructor
  · intro p hp
    obtain ⟨hpmem, hpbl, hpmin⟩ := hbase.1 p hp
    refine ⟨((hmem p).mp hpmem).2, hpbl, ?_⟩
    intro q hq helig hqbl
    exact hpmin q ((hmem q).mpr ⟨hq, helig⟩) hqbl
  · rw [hbase.2]
    constructor
    · intro hall q hq helig
      exact hall q ((hmem q).mpr ⟨hq, helig⟩)
    · intro hall q hq
      obtain ⟨hqps, helig⟩ := (hmem q).mp hq
      exact hall q hqps helig

/-- Claim C1 as stated is false on the code: with two eligible,
non-blacklisted providers sharing a sort_order, the query result that
lists the larger id first is admissible (the SELECT orders by
sort_order only), and the loop then returns the larger id, not the
(sort_order, id) minimum. -/
theorem select_provider_id_tiebreak_counterexample :
    AdmissibleQueryResult [sampleProvider, sampleProviderB] .claude_code
      [sampleProviderB, sampleProvider] ∧
    select_provider [sampleProviderB, sampleProvider] 1000 = some sampleProviderB ∧
    minBySortId ([sampleProvider, sampleProviderB].filter
      (fun p => eligibleProvider p .claude_code && !is_blacklisted p 1000)) =
      some sampleProvider ∧
    sampleProviderB ≠ sampleProvider := by
  refine ⟨⟨?_, ?_⟩, rfl, rfl, by decide⟩
  · exact List.Perm.swap sampleProvider sampleProviderB []
  · decide

/-- Example instance of claim C1's amended theorem on a concrete
admissible query result. -/
theorem select_provider_minimal_witness :
    eligibleProvider sampleProvider .claude_code = true ∧
    is_blacklisted sampleProvider 1000 = false := by
  have h := select_provider_minimal [sampleProvider, sampleProviderB] .claude_code 1000
    [sampleProvider, sampleProviderB] ⟨by decide, by decide⟩
  exact ⟨(h.1 sampleProvider rfl).1, (h.1 sampleProvider rfl).2.1⟩

/-- Every entry of a dict after assignment is the assigned pair or an
original entry. -/
theorem mem_assocSet {β : Type} (hs : List (String × β)) (k : String) (v : β) :
    ∀ kv ∈ assocSet hs k v, kv = (k, v) ∨ kv ∈ hs := by
  induction hs with
  | nil => simp [assocSet]
  | cons h rest ih =>
    intro kv hkv
    simp only [assocSet] at hkv
    split at hkv
    · rcases List.mem_cons.mp hkv with h1 | h1
      · exact Or.inl h1
      · exact Or.inr (List.mem_cons_of_mem _ h1)
    · rcases List.mem_cons.mp hkv with h1 | h1
      · exact Or.inr (h1 ▸ List.mem_cons_self _ _)
      · rcases ih kv h1 with h2 | h2
        · exact Or.inl h2
        · exact Or.inr (List.mem_cons_of_mem _ h2)

/-- A dict with no entry for a key filters to nothing on that key. -/
theorem filter_key_eq_nil {β : Type} (hs : List (String × β)) (k : String)
    (h : k ∉ hs.map Prod.fst) :
    hs.filter (fun kv => kv.1 = k) = [] := by
  induction hs with
  | nil => rfl
  | cons x rest ih =>
    simp only [List.map_cons, List.mem_cons] at h
    push_neg at h
    simp only [List.filter_cons]
    rw [if_neg (by simpa using Ne.symm h.1)]
    exact ih h.2

/-- After assignment to a key in a dict with unique keys, exactly the
assigned pair carries that key. -/
theorem assocSet_filter_key {β : Type} (hs : List (String × β)) (k : String) (v : β)
    (hnd : (hs.map Prod.fst).Nodup) :
    (assocSet hs k v).filter (fun kv => kv.1 = k) = [(k, v)] := by
  induction hs with
  | nil => simp [assocSet]
  | cons x rest ih =>
    simp only [List.map_cons, List.nodup_cons] at hnd
    simp only [assocSet]
    split
    · rename_i heq
      simp only [List.filter_cons]
      rw [if_pos (by simp)]
      rw [filter_key_eq_nil rest k (heq ▸ hnd.1)]
    · rename_i hne
      simp only [List.filter_cons]
      rw [if_neg (by simpa using hne)]
      exact ih hnd.2

/-- Claim C3: the forwarded request headers contain no hop-by-hop name
(case-insensitively), and exactly one auth header carrying the
provider key: a bearer authorization for CLI A and B (replacing any
inbound one), an x-goog-api-key for CLI C (with any inbound
authorization popped).  The hypotheses record the ASGI contract that
inbound header names arrive lowercased and the dict has unique keys. -/
theorem forward_headers_sanitized (cli : CliType) (apiKey : String)
    (inbound : List (String × String))
    (hlow : ∀ kv ∈ inbound, lowerStr kv.1 = kv.1)
    (hnd : (inbound.map Prod.fst).Nodup) :
    (∀ kv ∈ buildForwardHeaders cli apiKey inbound,
      FILTERED_HEADERS.contains (lowerStr kv.1) = false) ∧
    (cli ≠ .gemini →
      (buildForwardHeaders cli apiKey inbound).filter
        (fun kv => lowerStr kv.1 = "authorization") =
        [("authorization", "Bearer " ++ apiKey)]) ∧
    (cli = .gemini →
      (buildForwardHeaders cli apiKey inbound).filter
        (fun kv => lowerStr kv.1 = "authorization") = [] ∧
      (buildForwardHeaders cli apiKey inbound).filter
        (fun kv => lowerStr kv.1 = "x-goog-api-key") =
        [("x-goog-api-key", apiKey)]) := by
  have hndf : ((filterRequestHeaders inbound).map Prod.fst).Nodup :=
    hnd.sublist ((List.filter_sublist inbound).map Prod.fst)
  have hmemf : ∀ kv ∈ filterRequestHeaders inbound,
      FILTERED_HEADERS.contains (lowerStr kv.1) = false := by
    intro kv hkv
    have := List.of_mem_filter hkv
    simpa using this
  have hsubf : ∀ kv ∈ filterRequestHeaders inbound, kv ∈ inbound := by
    intro kv hkv
    exact List.mem_of_mem_filter hkv
  refine ⟨?_, ?_, ?_⟩
  · intro kv hkv
    cases cli with
    | gemini =>
      simp only [buildForwardHeaders] at hkv
      rcases mem_assocSet _ _ _ kv hkv with h | h
      · subst h; rfl
      · exact hmemf kv (List.mem_of_mem_filter h)
    | claude_code =>
      simp only [buildForwardHeaders] at hkv
      rcases mem_assocSet _ _ _ kv hkv with h | h
      · subst h; rfl
      · exact hmemf kv h
    | codex =>
      simp only [buildForwardHeaders] at hkv
      rcases mem_assocSet _ _ _ kv hkv with h | h
      · subst h; rfl
      · exact hmemf kv h
  · intro hne
    have hout : buildForwardHeaders cli apiKey inbound =
        assocSet (filterRequestHeaders inbound) "authorization" ("Bearer " ++ apiKey) := by
      cases cli with
      | gemini => exact absurd rfl hne
      | claude_code => rfl
      | codex => rfl
    have hcong : ∀ kv ∈ assocSet (filterRequestHeaders inbound) "authorization"
        ("Bearer " ++ apiKey),
        decide (lowerStr kv.1 = "authorization") = decide (kv.1 = "authorization") := by
      intro kv hkv
      rcases mem_assocSet _ _ _ kv hkv with h | h
      · subst h; rfl
      · rw [hlow kv (hsubf kv h)]
    rw [hout, List.filter_congr hcong, assocSet_filter_key _ _ _ hndf]
  · intro hg
    subst hg
    have hnd2 : (((filterRequestHeaders inbound).filter
        (fun kv => kv.1 ≠ "authorization")).map Prod.fst).Nodup :=
      hndf.sublist ((List.filter_sublist _).map Prod.fst)
    constructor
    · rw [List.filter_eq_nil_iff]
      intro kv hkv
      simp only [buildForwardHeaders] at hkv
      rcases mem_assocSet _ _ _ kv hkv with h | h
      · subst h
        change ¬ (decide (lowerStr "x-goog-api-key" = "authorization") = true)
        decide
      · have hne := List.of_mem_filter h
        have hmem := List.mem_of_mem_filter h
        have hl := hlow kv (hsubf kv hmem)
        simp only [decide_eq_true_eq] at hne ⊢
        intro hbad
        rw [hl] at hbad
        simp [hbad] at hne
    · simp only [buildForwardHeaders]
      have hcong : ∀ kv ∈ assocSet ((filterRequestHeaders inbound).filter
          (fun kv => kv.1 ≠ "authorization")) "x-goog-api-key" apiKey,
          decide (lowerStr kv.1 = "x-goog-api-key") = decide (kv.1 = "x-goog-api-key") := by
        intro kv hkv
        rcases mem_assocSet _ _ _ kv hkv with h | h
        · subst h; rfl
        · rw [hlow kv (hsubf kv (List.mem_of_mem_filter h))]
      rw [List.filter_congr hcong, assocSet_filter_key _ _ _ hnd2]

/-- Example instance of claim C3's theorem on a concrete inbound
header dict. -/
theorem forward_headers_sanitized_witness :
    (buildForwardHeaders .claude_code "K"
      [("host", "h"), ("authorization", "old"), ("content-type", "application/json")]).filter
      (fun kv => lowerStr kv.1 = "authorization") = [("authorization", "Bearer " ++ "K")] := by
  have h := forward_headers_sanitized .claude_code "K"
    [("host", "h"), ("authorization", "old"), ("content-type", "application/json")]
    (by decide) (by decide)
  exact h.2.1 (by decide)

/-- Claim C4: the response headers returned to the CLI (the one
comprehension shared verbatim by the streaming and the non-streaming
branch) drop every hop-by-hop name and content-encoding
(case-insensitively) and carry exactly one X-CCG-Provider entry whose
value is the percent-encoded provider name; the non-streaming outcome
returns exactly these headers. -/
theorem response_headers_filtered (name : String) (upstream : List (String × String))
    (hnd : (upstream.map Prod.fst).Nodup) :
    (∀ kv ∈ buildResponseHeaders name upstream,
      FILTERED_HEADERS.contains (lowerStr kv.1) = false ∧
        lowerStr kv.1 ≠ "content-encoding") ∧
    (buildResponseHeaders name upstream).filter
      (fun kv => kv.1 = "X-CCG-Provider") = [("X-CCG-Provider", pctQuote name)] ∧
    (∀ (cli : CliType) (dbg : Bool) (status : Nat) (body : List Char),
      (forwardNonStreaming cli name dbg (.ok status body upstream)).response =
        .ok (status, body, buildResponseHeaders name upstream)) := by
  have hndf : ((filterResponseHeaders upstream).map Prod.fst).Nodup :=
    hnd.sublist ((List.filter_sublist upstream).map Prod.fst)
  refine ⟨?_, ?_, ?_⟩
  · intro kv hkv
    rcases mem_assocSet _ _ _ kv hkv with h | h
    · subst h
      constructor
      · rfl
      · change ¬ (lowerStr "X-CCG-Provider" = "content-encoding")
        decide
    · have := List.of_mem_filter h
      simp only [Bool.and_eq_true, Bool.not_eq_true', decide_eq_true_eq] at this
      exact ⟨this.1, this.2⟩
  · exact assocSet_filter_key _ _ _ hndf
  · intro cli dbg status body
    rfl

/-- Example instance of claim C4's theorem on a concrete upstream
header dict. -/
theorem response_headers_filtered_witness :
    (buildResponseHeaders "P1"
      [("content-encoding", "gzip"), ("content-type", "text/event-stream"),
       ("connection", "keep-alive")]).filter
      (fun kv => kv.1 = "X-CCG-Provider") = [("X-CCG-Provider", pctQuote "P1")] := by
  have h := response_headers_filtered "P1"
    [("content-encoding", "gzip"), ("content-type", "text/event-stream"),
     ("connection", "keep-alive")] (by decide)
  exact h.2.1

/-- Claim C8 as stated is false for CLI A and B: the code returns the
truthiness of the stream field, not a comparison with the boolean
true, so the body with stream set to the number 1 is classified as
streaming while the claim classifies it as non-streaming. -/
theorem streaming_truthiness_counterexample :
    isStreamingRequest (strL "\x7b\"stream\": 1\x7d") [] .claude_code = true ∧
    isStreamingClaim (strL "\x7b\"stream\": 1\x7d") [] .claude_code = false := by
  constructor <;> rfl

/-- Claim C8 (amended): for CLI C, streaming iff the path contains the
streamGenerateContent marker; for A and B, streaming iff the body
parses as a JSON object whose stream field (defaulting to false) is
truthy — a non-JSON body, a non-object body or a missing field is
non-streaming, but any truthy value (not only the boolean true)
classifies as streaming. -/
theorem streaming_classification (body path : List Char) (cli : CliType) :
    (isStreamingRequest body path .gemini =
      containsSubL (strL ":streamGenerateContent") path) ∧
    (cli ≠ .gemini →
      (isStreamingRequest body path cli = true ↔
        ∃ fs, jsonParse body = some (.obj fs) ∧
          pyTruthy ((fs.lookup "stream").getD (.bool false)) = true)) := by
  constructor
  · rfl
  · intro hne
    have hdef : isStreamingRequest body path cli =
        (match jsonParse body with
         | some (.obj fs) => pyTruthy ((fs.lookup "stream").getD (.bool false))
         | _ => false) := by
      cases cli with
      | gemini => exact absurd rfl hne
      | claude_code => rfl
      | codex => rfl
    rw [hdef]
    cases hpar : jsonParse body with
    | none => simp
    | some j =>
      cases j with
      | obj fs =>
        simp only [Option.some.injEq]
        constructor
        · intro h
          exact ⟨fs, rfl, h⟩
        · rintro ⟨fs', hfs, h⟩
          cases hfs
          exact h
      | null => simp
      | bool b => simp
      | num n => simp
      | str s => simp
      | arr xs => simp

/-- Example instance of claim C8's amended theorem on a concrete
truthy non-boolean body. -/
theorem streaming_classification_witness :
    isStreamingRequest (strL "\x7b\"stream\": 1\x7d") [] .codex = true := by
  have h := (streaming_classification (strL "\x7b\"stream\": 1\x7d") [] .codex).2
    (by decide)
  exact h.mpr ⟨[("stream", .num 1)], by rfl, by rfl⟩

/-- Claim C9: the non-streaming outcome as a function of the upstream
result: below 400, a success record and a success stat carrying the
token counts parsed from the body, with the upstream status, body and
filtered headers echoed; at 400 and above, a failure record and a
zero-token failure stat while the upstream status and body are still
echoed; on timeout, a failure record, a 504 response whose detail is
Upstream timeout, and a persisted log row (present exactly when debug
logging is on) whose error_message is Upstream timeout. -/
theorem non_streaming_outcome (cli : CliType) (pn : String) (dbg : Bool) :
    (∀ (status : Nat) (body : List Char) (hs : List (String × String)),
      (status < 400 →
        forwardNonStreaming cli pn dbg (.ok status body hs) =
          { health := .success, statSuccess := true,
            statInput := (parseSseUsage cli body usageZero).input,
            statOutput := (parseSseUsage cli body usageZero).output,
            response := .ok (status, body, buildResponseHeaders pn hs),
            logRow := if dbg then some none else none }) ∧
      (400 ≤ status →
        forwardNonStreaming cli pn dbg (.ok status body hs) =
          { health := .failure, statSuccess := false,
            statInput := .num 0, statOutput := .num 0,
            response := .ok (status, body, buildResponseHeaders pn hs),
            logRow := if dbg then some none else none })) ∧
    forwardNonStreaming cli pn dbg .timeout =
      { health := .failure, statSuccess := false,
        statInput := .num 0, statOutput := .num 0,
        response := .error (504, "Upstream timeout"),
        logRow := if dbg then some (some "Upstream timeout") else none } := by
  refine ⟨?_, rfl⟩
  intro status body hs
  constructor
  · intro h
    have hd : decide (status < 400) = true := decide_eq_true h
    simp [forwardNonStreaming, hd]
  · intro h
    have hd : decide (status < 400) = false := decide_eq_false (Nat.not_lt.mpr h)
    simp [forwardNonStreaming, hd]

/-- Example instance of claim C9's theorem at concrete statuses. -/
theorem non_streaming_outcome_witness :
    forwardNonStreaming .claude_code "P1" true (.ok 200 [] []) =
      { health := .success, statSuccess := true,
        statInput := (parseSseUsage .claude_code [] usageZero).input,
        statOutput := (parseSseUsage .claude_code [] usageZero).output,
        response := .ok (200, [], buildResponseHeaders "P1" []),
        logRow := some none } ∧
    forwardNonStreaming .claude_code "P1" true (.ok 500 [] []) =
      { health := .failure, statSuccess := false,
        statInput := .num 0, statOutput := .num 0,
        response := .ok (500, [], buildResponseHeaders "P1" []),
        logRow := some none } := by
  constructor
  · have h := ((non_streaming_outcome .claude_code "P1" true).1 200 [] []).1 (by decide)
    simpa using h
  · have h := ((non_streaming_outcome .claude_code "P1" true).1 500 [] []).2 (by decide)
    simpa using h

/-- A rule list with at least one enabled rule makes the loop raise:
disabled rules are skipped by the short-circuit, and the first enabled
rule's body reads the source_model attribute that ProviderModelMap
does not define. -/
theorem findMatchLoop_enabled_raises (maps : List ModelMap) :
    (∃ mm ∈ maps, mm.enabled ≠ 0) → findMatchLoop maps = none := by
  induction maps with
  | nil =>
    rintro ⟨mm, hmm, _⟩
    exact absurd hmm (List.not_mem_nil mm)
  | cons mm rest ih =>
    rintro ⟨x, hx, hxe⟩
    simp only [findMatchLoop]
    by_cases he : (mm.enabled != 0) = true
    · rw [if_pos he]
    · rw [if_neg he]
      rcases List.mem_cons.mp hx with h | h
      · subst h
        simp only [bne_iff_ne, ne_eq, not_not] at he
        exact absurd he hxe
      · exact ih ⟨x, h, hxe⟩

/-- Claim C5, code bug: the services read a source_model attribute the
ProviderModelMap class (which declares model_role instead) does not
define, so for any request body that is a JSON object with a model
field, a provider with at least one enabled rule makes
_apply_model_mapping raise AttributeError (uncaught by its except
clause) instead of rewriting or passing the body through; the
forward_request handler then fails the request with a 502.  The claim
describes the rewrite the services were written to perform, which this
program cannot exhibit. -/
theorem model_mapping_inoperative (maps : List ModelMap) (body : List Char)
    (fs : List (String × Json)) (v : Json)
    (hpar : jsonParse body = some (.obj fs))
    (hlook : fs.lookup "model" = some v)
    (hen : ∃ mm ∈ maps, mm.enabled ≠ 0) :
    applyModelMapping maps body = none := by
  have hb : body ≠ [] := by
    intro h
    rw [h, show jsonParse [] = none from rfl] at hpar
    exact Option.noConfusion hpar
  have hm : maps ≠ [] := by
    rintro rfl
    obtain ⟨mm, hmm, _⟩ := hen
    exact absurd hmm (List.not_mem_nil mm)
  simp only [applyModelMapping, if_neg hb, hpar, pyMember, hlook, Option.isSome_some,
    pyIndex, if_neg hm, findMatchLoop_enabled_raises maps hen]

/-- Example instance of claim C5's theorem at the failing input: a
disabled rule followed by an enabled one and a body carrying model abc
make the mapping raise (modelled as none) rather than rewrite. -/
theorem model_mapping_inoperative_witness :
    applyModelMapping [mapRoleOff, mapRole] (strL "\x7b\"model\": \"abc\"\x7d") = none := by
  exact model_mapping_inoperative [mapRoleOff, mapRole] _ [("model", .str "abc")]
    (.str "abc") rfl rfl ⟨mapRole, by simp, by decide⟩

/-- Assigning the input entry leaves getD semantics. -/
theorem updInput_input (u : Usage) (v : Option Json) :
    (updInput u v).input = v.getD u.input := by
  cases v <;> rfl

/-- Assigning the input entry leaves the output entry. -/
theorem updInput_output (u : Usage) (v : Option Json) :
    (updInput u v).output = u.output := by
  cases v <;> rfl

/-- Assigning the output entry leaves getD semantics. -/
theorem updOutput_output (u : Usage) (v : Option Json) :
    (updOutput u v).output = v.getD u.output := by
  cases v <;> rfl

/-- Assigning the output entry leaves the input entry. -/
theorem updOutput_input (u : Usage) (v : Option Json) :
    (updOutput u v).input = u.input := by
  cases v <;> rfl

/-- Chained defaulting: taking the first of two optional values with a
final default associates. -/
theorem optChainGetD {α : Type} (a b : Option α) (x : α) :
    (a.orElse (fun _ => b)).getD x = a.getD (b.getD x) := by
  cases a <;> rfl

/-- The default of the last element of a cons. -/
theorem getLastD_cons {α : Type} (v x : α) (l : List α) :
    ((v :: l).getLast?).getD x = (l.getLast?).getD v := by
  induction l generalizing v x with
  | nil => rfl
  | cons w l' ih =>
    rw [List.getLast?_cons_cons, ih w x, ih w v]

/-- One non-raising event updates each counter to its effective value
when the event carries one, and leaves it otherwise. -/
theorem evStep_fields (cli : CliType) (e : Json) (u : Usage) (h : evOk cli e = true) :
    (evStep cli e u).input = (inpVal cli e).getD u.input ∧
    (evStep cli e u).output = (outVal cli e).getD u.output := by
  cases cli with
  | claude_code =>
    simp only [evOk, Bool.and_eq_true] at h
    obtain ⟨⟨⟨h1, h2⟩, h3⟩, h4⟩ := h
    simp only [evStep, h1, h2, h3, h4, Bool.and_self, Bool.true_and, if_true]
    constructor
    · rw [updOutput_input, updInput_input, updOutput_input, updInput_input,
        inpVal, optChainGetD]
    · rw [updOutput_output, updInput_output, updOutput_output, updInput_output,
        outVal, optChainGetD]
  | codex =>
    simp only [evStep, h, if_true]
    cases hl : jLookup e "type" with
    | none => simp [inpVal, outVal, hl]
    | some j =>
      cases j with
      | str t =>
        by_cases ht : t = "response.completed"
        · simp only [inpVal, outVal, hl, ht, if_true]
          constructor
          · rw [updOutput_input, updInput_input]
          · rw [updOutput_output, updInput_output]
        · simp [inpVal, outVal, hl, ht]
      | null => simp [inpVal, outVal, hl]
      | bool b => simp [inpVal, outVal, hl]
      | num n => simp [inpVal, outVal, hl]
      | arr xs => simp [inpVal, outVal, hl]
      | obj fs => simp [inpVal, outVal, hl]
  | gemini =>
    simp only [evOk, Bool.and_eq_true] at h
    obtain ⟨⟨⟨h1, h2⟩, h3⟩, h4⟩ := h
    obtain ⟨c, hc⟩ := Option.isSome_iff_exists.mp h3
    obtain ⟨t, ht⟩ := Option.isSome_iff_exists.mp h4
    simp only [evStep, h1, h2, Bool.and_self, if_true, hc, ht]
    by_cases hpos : c + t > 0
    · simp only [if_pos hpos]
      constructor
      · simp only [inpVal]
        rw [show ({ updInput u (jLookup (jGetD e "usageMetadata") "promptTokenCount") with
            output := Json.num (c + t) } : Usage).input =
            (updInput u (jLookup (jGetD e "usageMetadata") "promptTokenCount")).input from rfl]
        rw [updInput_input]
      · simp [outVal, hc, ht, hpos]
    · simp only [if_neg hpos]
      constructor
      · simp only [inpVal]
        rw [updInput_input]
      · simp [outVal, hc, ht, hpos, updInput_output]

/-- Last-write-wins over a list of non-raising events: each final
counter is the effective value of the last event carrying that field,
or the starting value when no event carries it. -/
theorem applyEvents_fields (cli : CliType) (evs : List Json) (u : Usage)
    (h : ∀ e ∈ evs, evOk cli e = true) :
    (applyEvents cli evs u).input =
      ((evs.filterMap (inpVal cli)).getLast?).getD u.input ∧
    (applyEvents cli evs u).output =
      ((evs.filterMap (outVal cli)).getLast?).getD u.output := by
  revert h
  induction evs generalizing u with
  | nil =>
    intro h
    simp [applyEvents]
  | cons e es ih =>
    intro h
    have he := h e (List.mem_cons_self e es)
    have hes : ∀ x ∈ es, evOk cli x = true := fun x hx => h x (List.mem_cons_of_mem e hx)
    have hstep := evStep_fields cli e u he
    have ihh := ih (evStep cli e u) hes
    simp only [applyEvents, he, if_true]
    constructor
    · rw [ihh.1, hstep.1, List.filterMap_cons]
      cases hi : inpVal cli e with
      | none => simp [hi]
      | some v => simp [hi, getLastD_cons]
    · rw [ihh.2, hstep.2, List.filterMap_cons]
      cases hi : outVal cli e with
      | none => simp [hi]
      | some v => simp [hi, getLastD_cons]

/-- Claim C7: for CLI A, message.usage and top-level usage fields are
applied by assignment in stream order, last write wins: each final
counter equals the effective value of the last event carrying that
field (within one event the top-level usage is assigned after
message.usage, so it wins), and the two sources are never summed. -/
theorem claude_usage_last_write (evs : List Json) (u : Usage)
    (h : ∀ e ∈ evs, evOk .claude_code e = true) :
    (applyEvents .claude_code evs u).input =
      ((evs.filterMap (inpVal .claude_code)).getLast?).getD u.input ∧
    (applyEvents .claude_code evs u).output =
      ((evs.filterMap (outVal .claude_code)).getLast?).getD u.output :=
  applyEvents_fields .claude_code evs u h

/-- Example instance of claim C7's theorem: a message_start carrying
input 10 and output 1 followed by a message_delta carrying output 99
ends at input 10 and output 99 — assigned, not summed. -/
theorem claude_usage_last_write_witness :
    (applyEvents .claude_code
      [.obj [("message", .obj [("usage",
         .obj [("input_tokens", .num 10), ("output_tokens", .num 1)])])],
       .obj [("usage", .obj [("output_tokens", .num 99)])]] usageZero).input = .num 10 ∧
    (applyEvents .claude_code
      [.obj [("message", .obj [("usage",
         .obj [("input_tokens", .num 10), ("output_tokens", .num 1)])])],
       .obj [("usage", .obj [("output_tokens", .num 99)])]] usageZero).output = .num 99 := by
  have h := claude_usage_last_write
    [.obj [("message", .obj [("usage",
       .obj [("input_tokens", .num 10), ("output_tokens", .num 1)])])],
     .obj [("usage", .obj [("output_tokens", .num 99)])]] usageZero (by decide)
  exact ⟨h.1.trans (by rfl), h.2.trans (by rfl)⟩

/-- Splitting on newlines never yields the empty list. -/
theorem splitLines_ne_nil (cs : List Char) : splitLines cs ≠ [] := by
  induction cs with
  | nil => simp [splitLines]
  | cons c cs ih =>
    simp only [splitLines]
    split
    · simp
    · split
      · simp
      · simp

/-- Splitting a non-newline head conses it onto the first line. -/
theorem splitLines_cons_ne (c : Char) (cs : List Char) (hc : ¬ c = '\n') :
    splitLines (c :: cs) = (c :: (splitLines cs).headD []) :: (splitLines cs).tail := by
  simp only [splitLines, if_neg hc]
  cases h : splitLines cs with
  | nil => exact absurd h (splitLines_ne_nil cs)
  | cons l ls => rfl

/-- A text ending in a newline splits into at least two lines. -/
theorem splitLines_length_two (a : List Char) :
    a ≠ [] → a.getLast? = some '\n' → 2 ≤ (splitLines a).length := by
  induction a with
  | nil => intro h; exact absurd rfl h
  | cons c cs ih =>
    intro _ hl
    cases cs with
    | nil =>
      simp only [List.getLast?_singleton, Option.some.injEq] at hl
      subst hl
      simp [splitLines]
    | cons d ds =>
      have hl' : (d :: ds).getLast? = some '\n' := by
        rwa [List.getLast?_cons_cons] at hl
      have ih' := ih (by simp) hl'
      by_cases hc : c = '\n'
      · subst hc
        have hsh : splitLines ('\n' :: d :: ds) = [] :: splitLines (d :: ds) := by
          simp [splitLines]
        have hpos : 1 ≤ (splitLines (d :: ds)).length := by
          cases h : splitLines (d :: ds) with
          | nil => exact absurd h (splitLines_ne_nil _)
          | cons x xs => simp
        rw [hsh, List.length_cons]
        omega
      · rw [splitLines_cons_ne c _ hc]
        simp only [List.length_cons, List.length_tail]
        omega

/-- A text ending in a newline splits with a final empty line. -/
theorem splitLines_getLast (a : List Char) :
    a ≠ [] → a.getLast? = some '\n' → (splitLines a).getLast? = some [] := by
  induction a with
  | nil => intro h; exact absurd rfl h
  | cons c cs ih =>
    intro _ hl
    cases cs with
    | nil =>
      simp only [List.getLast?_singleton, Option.some.injEq] at hl
      subst hl
      rfl
    | cons d ds =>
      have hl' : (d :: ds).getLast? = some '\n' := by
        rwa [List.getLast?_cons_cons] at hl
      have ih' := ih (by simp) hl'
      by_cases hc : c = '\n'
      · subst hc
        have hsh : splitLines ('\n' :: d :: ds) = [] :: splitLines (d :: ds) := by
          simp [splitLines]
        rw [hsh]
        cases h : splitLines (d :: ds) with
        | nil => exact absurd h (splitLines_ne_nil _)
        | cons x xs =>
          rw [List.getLast?_cons_cons, ← h]
          exact ih'
      · rw [splitLines_cons_ne c _ hc]
        have hlen := splitLines_length_two (d :: ds) (by simp) hl'
        obtain ⟨x, xs, hx⟩ : ∃ x xs, splitLines (d :: ds) = x :: xs := by
          cases h : splitLines (d :: ds) with
          | nil => exact absurd h (splitLines_ne_nil _)
          | cons x xs => exact ⟨x, xs, rfl⟩
        obtain ⟨y, ys, hy⟩ : ∃ y ys, xs = y :: ys := by
          cases hxs : xs with
          | nil => rw [hx, hxs] at hlen; simp at hlen
          | cons y ys => exact ⟨y, ys, rfl⟩
        rw [hx, hy] at ih' ⊢
        simp only [List.headD_cons, List.tail_cons]
        rw [List.getLast?_cons_cons] at ih' ⊢
        exact ih'

/-- Glue lemma: appending after a newline-terminated prefix splits
into the prefix's lines (minus its trailing empty line) followed by
the suffix's lines. -/
theorem splitLines_append (a b : List Char) :
    a ≠ [] → a.getLast? = some '\n' →
    splitLines (a ++ b) = (splitLines a).dropLast ++ splitLines b := by
  induction a with
  | nil => intro h; exact absurd rfl h
  | cons c cs ih =>
    intro _ hl
    cases cs with
    | nil =>
      simp only [List.getLast?_singleton, Option.some.injEq] at hl
      subst hl
      simp [splitLines]
    | cons d ds =>
      have hl' : (d :: ds).getLast? = some '\n' := by
        rwa [List.getLast?_cons_cons] at hl
      have ih' := ih (by simp) hl'
      by_cases hc : c = '\n'
      · subst hc
        have h1 : splitLines ('\n' :: ((d :: ds) ++ b)) = [] :: splitLines ((d :: ds) ++ b) := by
          simp [splitLines]
        have h2 : splitLines ('\n' :: d :: ds) = [] :: splitLines (d :: ds) := by
          simp [splitLines]
        rw [List.cons_append, h1, ih', h2]
        obtain ⟨x, xs, hx⟩ : ∃ x xs, splitLines (d :: ds) = x :: xs := by
          cases h : splitLines (d :: ds) with
          | nil => exact absurd h (splitLines_ne_nil _)
          | cons x xs => exact ⟨x, xs, rfl⟩
        rw [hx]
        rfl
      · have hlen := splitLines_length_two (d :: ds) (by simp) hl'
        obtain ⟨x, xs, hx⟩ : ∃ x xs, splitLines (d :: ds) = x :: xs := by
          cases h : splitLines (d :: ds) with
          | nil => exact absurd h (splitLines_ne_nil _)
          | cons x xs => exact ⟨x, xs, rfl⟩
        obtain ⟨y, ys, hy⟩ : ∃ y ys, xs = y :: ys := by
          cases hxs : xs with
          | nil => rw [hx, hxs] at hlen; simp at hlen
          | cons y ys => exact ⟨y, ys, rfl⟩
        rw [List.cons_append, splitLines_cons_ne c _ hc, splitLines_cons_ne c _ hc,
          ih', hx, hy]
        rfl

/-- Data payloads distribute over a line-aligned chunk boundary. -/
theorem dataPayloads_append (a b : List Char) (h : LineAligned a) :
    dataPayloads (a ++ b) = dataPayloads a ++ dataPayloads b := by
  rcases h with h | h
  · subst h
    rw [List.nil_append, show dataPayloads [] = [] from rfl, List.nil_append]
  · by_cases hne : a = []
    · subst hne
      simp at h
    · have hglue := splitLines_append a b hne h
      have hlast := splitLines_getLast a hne h
      have hSne := splitLines_ne_nil a
      have hget : (splitLines a).getLast hSne = [] := by
        have := List.getLast?_eq_getLast (splitLines a) hSne
        rw [this] at hlast
        exact Option.some.inj hlast
      have hSa : splitLines a = (splitLines a).dropLast ++ [[]] := by
        conv_lhs => rw [← List.dropLast_append_getLast hSne]
        rw [hget]
      simp only [dataPayloads]
      rw [hglue, List.filterMap_append]
      congr 1
      conv_rhs => rw [hSa]
      rw [List.filterMap_append]
      rw [show List.filterMap linePayload [[]] = [] from rfl, List.append_nil]

/-- Decoded payloads distribute over a line-aligned chunk boundary. -/
theorem decodedPayloads_append (a b : List Char) (h : LineAligned a) :
    decodedPayloads (a ++ b) = decodedPayloads a ++ decodedPayloads b := by
  simp only [decodedPayloads]
  rw [dataPayloads_append a b h, List.filterMap_append]

/-- Decoded payloads of a whole buffer are the concatenation of the
chunks' decoded payloads, provided no chunk boundary splits a line. -/
theorem decodedPayloads_flatten (chunks : List (List Char)) :
    (∀ c ∈ chunks.dropLast, LineAligned c) →
    decodedPayloads chunks.flatten = (chunks.map decodedPayloads).flatten := by
  induction chunks with
  | nil => intro _; rfl
  | cons c cs ih =>
    intro hA
    cases cs with
    | nil => simp
    | cons d ds =>
      have hAc : LineAligned c := by
        apply hA
        simp [List.dropLast_cons₂]
      have hA' : ∀ x ∈ (d :: ds).dropLast, LineAligned x := by
        intro x hx
        apply hA
        simp only [List.dropLast_cons₂, List.mem_cons]
        exact Or.inr hx
      rw [List.flatten_cons, decodedPayloads_append c _ hAc, ih hA']
      simp [List.map_cons, List.flatten_cons]

/-- Processing a concatenation of non-raising events chains. -/
theorem applyEvents_append (cli : CliType) (xs ys : List Json) :
    (∀ e ∈ xs, evOk cli e = true) →
    ∀ u, applyEvents cli (xs ++ ys) u = applyEvents cli ys (applyEvents cli xs u) := by
  induction xs with
  | nil => intro _ u; rfl
  | cons e es ih =>
    intro h u
    have he := h e (List.mem_cons_self e es)
    simp only [List.cons_append, applyEvents, he, if_true]
    exact ih (fun x hx => h x (List.mem_cons_of_mem e hx)) _

/-- On an SSE-pure chunk the processed events are exactly the decoded
payloads (the fallback contributes nothing). -/
theorem chunkEvents_pure (c : List Char) (h : SsePure c) :
    chunkEvents c = decodedPayloads c := by
  rcases h with h | h
  · simp [chunkEvents, h]
  · simp only [chunkEvents]
    by_cases hd : (decodedPayloads c).isEmpty
    · rw [if_pos hd]
      rw [Option.isNone_iff_eq_none] at h
      rw [h, List.isEmpty_iff] at *
      rw [hd]
      rfl
    · rw [if_neg hd]

/-- Two usage dicts agreeing on both entries are equal. -/
theorem usage_ext (a b : Usage) (h1 : a.input = b.input) (h2 : a.output = b.output) :
    a = b := by
  cases a
  cases b
  simp_all

/-- Re-processing the same non-raising events is idempotent: every
counter ends at the last assigned value either way. -/
theorem applyEvents_idem (cli : CliType) (evs : List Json) (u : Usage)
    (h : ∀ e ∈ evs, evOk cli e = true) :
    applyEvents cli evs (applyEvents cli evs u) = applyEvents cli evs u := by
  have h1 := applyEvents_fields cli evs (applyEvents cli evs u) h
  have h2 := applyEvents_fields cli evs u h
  apply usage_ext
  · rw [h1.1]
    cases hg : (evs.filterMap (inpVal cli)).getLast? with
    | none => rfl
    | some v =>
      rw [h2.1, hg]
      rfl
  · rw [h1.2]
    cases hg : (evs.filterMap (outVal cli)).getLast? with
    | none => rfl
    | some v =>
      rw [h2.2, hg]
      rfl

/-- The incremental pass over pure, non-raising chunks processes the
concatenated decoded payloads. -/
theorem streamFold_flatten (cli : CliType) (chunks : List (List Char)) :
    (∀ c ∈ chunks, SsePure c) →
    (∀ c ∈ chunks, ∀ e ∈ decodedPayloads c, evOk cli e = true) →
    ∀ u, chunks.foldl (fun v c => parseSseUsage cli c v) u =
      applyEvents cli ((chunks.map decodedPayloads).flatten) u := by
  induction chunks with
  | nil => intro _ _ u; rfl
  | cons c cs ih =>
    intro hP hOk u
    simp only [List.foldl_cons, List.map_cons, List.flatten_cons]
    rw [applyEvents_append cli _ _ (hOk c (List.mem_cons_self c cs)) u]
    rw [show parseSseUsage cli c u = applyEvents cli (decodedPayloads c) u from by
      rw [parseSseUsage, chunkEvents_pure c (hP c (List.mem_cons_self c cs))]]
    exact ih (fun x hx => hP x (List.mem_cons_of_mem c hx))
      (fun x hx => hOk x (List.mem_cons_of_mem c hx)) _

/-- Claim C6 (amended): chunked incremental parsing, followed by the
whole-buffer re-parse that runs when both counters are still zero,
agrees with parsing the whole buffer once, provided no chunk boundary
splits a line, no chunk is spuriously parsed as plain JSON by the
fallback, and the decoded events do not raise.  The unamended claim
fails without the provisos (see the chunk-boundary counterexample). -/
theorem sse_chunking_agrees (cli : CliType) (chunks : List (List Char))
    (hA : ∀ c ∈ chunks.dropLast, LineAligned c)
    (hP : ∀ c ∈ chunks, SsePure c)
    (hOk : ∀ c ∈ chunks, ∀ e ∈ decodedPayloads c, evOk cli e = true) :
    finalUsage cli chunks = parseSseUsage cli chunks.flatten usageZero := by
  by_cases hnil : chunks = []
  · subst hnil
    rfl
  · have hdec := decodedPayloads_flatten chunks hA
    have hfold := streamFold_flatten cli chunks hP hOk usageZero
    have hOkE : ∀ e ∈ (chunks.map decodedPayloads).flatten, evOk cli e = true := by
      intro e he
      rw [List.mem_flatten] at he
      obtain ⟨l, hl, hel⟩ := he
      rw [List.mem_map] at hl
      obtain ⟨c, hc, rfl⟩ := hl
      exact hOk c hc e hel
    by_cases hE : (chunks.map decodedPayloads).flatten = []
    · have hS : streamFold cli chunks = usageZero := by
        rw [streamFold, hfold, hE]
        rfl
      rw [finalUsage]
      rw [hS]
      rw [if_pos (by simp [hnil, pyEqZero, usageZero])]
    · have hwhole : parseSseUsage cli chunks.flatten usageZero =
          applyEvents cli ((chunks.map decodedPayloads).flatten) usageZero := by
        rw [parseSseUsage]
        congr 1
        rw [chunkEvents, hdec]
        rw [if_neg (by simpa [List.isEmpty_iff] using hE)]
      have hS : streamFold cli chunks =
          applyEvents cli ((chunks.map decodedPayloads).flatten) usageZero := by
        rw [streamFold, hfold]
      rw [finalUsage, hS]
      split
      · rw [parseSseUsage]
        rw [show chunkEvents chunks.flatten = (chunks.map decodedPayloads).flatten from by
          rw [chunkEvents, hdec, if_neg (by simpa [List.isEmpty_iff] using hE)]]
        rw [applyEvents_idem cli _ usageZero hOkE, hwhole]
      · rw [hwhole]

/-- Claim C6 as stated is false on the code: splitting a data line
across a chunk boundary loses its event while the first chunk already
set the input counter, so the both-zero re-parse does not run and the
final output differs from the whole-buffer parse. -/
theorem sse_chunking_counterexample :
    jNumP (finalUsage .claude_code [chunkSplitA, chunkSplitB]).output = some 0 ∧
    jNumP (parseSseUsage .claude_code (chunkSplitA ++ chunkSplitB) usageZero).output =
      some 7 ∧
    finalUsage .claude_code [chunkSplitA, chunkSplitB] ≠
      parseSseUsage .claude_code (chunkSplitA ++ chunkSplitB) usageZero := by
  refine ⟨rfl, rfl, ?_⟩
  intro h
  exact absurd (congrArg (fun u => jNumP u.output) h) (by decide)

/-- Example instance of claim C6's amended theorem: two line-aligned
single-event chunks parse to the same counts as the whole buffer. -/
theorem sse_chunking_agrees_witness :
    finalUsage .claude_code [chunkAlignedA, chunkAlignedB] =
      parseSseUsage .claude_code ([chunkAlignedA, chunkAlignedB]).flatten usageZero := by
  exact sse_chunking_agrees .claude_code [chunkAlignedA, chunkAlignedB]
    (by decide) (by decide) (by decide)

end CCG
